import Mathlib

/-!
Verification development for the yt-channel-analytics scripts.

The development shallowly embeds the Python sources:
* `denoiser.py` (regex-substitution text pipeline),
* `batch_stt.py` / `batch_sst.py` (batch STT orchestrators),
* `stt_whisper.py` (transcript writer),
* `backfill_comments.py` (comment backfiller).

Python's `re.sub` passes are embedded through a small backtracking regex
engine (`matchRE` / `pySub`) that follows CPython's leftmost, greedy/lazy
backtracking semantics with capture groups, backreferences and word
boundaries; the engine is fuel-indexed so that all definitions are
structurally recursive and computable.
-/

namespace YTA

/-- Python `\w` (unicode word character), restricted to the scripts covered
by the sources: ASCII alphanumerics, underscore, and the Hangul blocks
(syllables, jamo, compatibility jamo) that the Korean transcripts use. -/
def isWordChar (c : Char) : Bool :=
  c.isAlphanum || c == '_' ||
  (0xAC00 ≤ c.toNat && c.toNat ≤ 0xD7A3) ||
  (0x1100 ≤ c.toNat && c.toNat ≤ 0x11FF) ||
  (0x3130 ≤ c.toNat && c.toNat ≤ 0x318F)

/-- Python `\s` (whitespace), the ASCII whitespace characters. -/
def isSpaceChar (c : Char) : Bool :=
  c == ' ' || c == '\t' || c == '\n' || c == '\r' ||
  c == '\x0b' || c == '\x0c'

/-- Python `\d`. -/
def isDigitChar (c : Char) : Bool := c.isDigit

/-- `isPrefixList n h`: the list `n` is a prefix of `h` (Boolean). -/
def isPrefixList : List Char → List Char → Bool
  | [], _ => true
  | _ :: _, [] => false
  | a :: as, b :: bs => a == b && isPrefixList as bs

/-- Python's substring test `n in h` on strings (as char lists). -/
def strContains : List Char → List Char → Bool
  | [], n => n.isEmpty
  | c :: t, n => isPrefixList n (c :: t) || strContains t n

/-- Python `str.strip()` (as char lists). -/
def pyStrip (l : List Char) : List Char :=
  ((l.dropWhile isSpaceChar).reverse.dropWhile isSpaceChar).reverse

/-- Python `str.split('\n')` (as char lists): no collapsing, `''` maps to `['']`. -/
def pySplit : List Char → List (List Char)
  | [] => [[]]
  | c :: t =>
    if c == '\n' then [] :: pySplit t
    else
      match pySplit t with
      | [] => [[c]]
      | h :: r => (c :: h) :: r

/-- Python `'\n'.join(lines)` (as char lists). -/
def joinN : List (List Char) → List Char
  | [] => []
  | [l] => l
  | l :: ls => l ++ '\n' :: joinN ls

/-! ## A Python-compatible regex engine

Patterns are transcribed one-to-one from the regex literals in the source.
`matchRE` returns the list of all matches at the current position in
backtracking priority order (so its head is the match CPython's engine
finds); it is anchored, and `pySub`'s scan loop supplies `re.sub`'s
leftmost-position semantics.  Unbounded repetitions only iterate while the
body consumes input, exactly as CPython's engine refuses to loop on an
empty body match. -/

/-- Regex syntax: character classes, concatenation, numbered groups,
backreferences, counted/unbounded repetition (greedy or lazy), `\b`. -/
inductive RE where
  | cls (p : Char → Bool)
  | cat (r₁ r₂ : RE)
  | grp (n : Nat) (r : RE)
  | bref (n : Nat)
  | rep (lo : Nat) (hi : Option Nat) (greedy : Bool) (r : RE)
  | wordB

/-- A literal character. -/
def lit (c : Char) : RE := .cls (fun x => x == c)

/-- Right-nested concatenation of a head regex and a list of followers. -/
def cats (r : RE) : List RE → RE
  | [] => r
  | x :: xs => .cat r (cats x xs)

/-- Capture environment: group number to captured characters, most recent
binding first (Python keeps a group's last successful capture). -/
abbrev Caps := List (Nat × List Char)

/-- One match outcome: (consumed text reversed onto the left context,
remaining input, captures). -/
abbrev MRes := List Char × List Char × Caps

/-- Python `\b`: true at a word/non-word transition, where the ends of the
string count as non-word. `prev` is the already-consumed input, reversed. -/
def wordBoundary (prev s : List Char) : Bool :=
  let a := match prev with | [] => false | c :: _ => isWordChar c
  let b := match s with | [] => false | c :: _ => isWordChar c
  a != b

/-- Decrement an optional repetition bound. -/
def decOpt : Option Nat → Option Nat
  | none => none
  | some n => some (n - 1)

/-- Anchored backtracking matcher.  All results, priority order; the fuel
only bounds recursion depth (each unbounded repetition consumes input on
every iteration, so `(length + 16) * 16` fuel is always sufficient for the
patterns in the sources). -/
def matchRE (fuel : Nat) (re : RE) (caps : Caps) (prev s : List Char) :
    List MRes :=
  match fuel with
  | 0 => []
  | f + 1 =>
    match re with
    | .cls p =>
      match s with
      | [] => []
      | c :: cs => if p c then [(c :: prev, cs, caps)] else []
    | .cat r₁ r₂ =>
      (matchRE f r₁ caps prev s).flatMap fun x => matchRE f r₂ x.2.2 x.1 x.2.1
    | .grp n r =>
      (matchRE f r caps prev s).map fun x =>
        (x.1, x.2.1, (n, s.take (s.length - x.2.1.length)) :: x.2.2)
    | .bref n =>
      match List.lookup n caps with
      | none => []
      | some v =>
        if isPrefixList v s then [(v.reverse ++ prev, s.drop v.length, caps)]
        else []
    | .wordB => if wordBoundary prev s then [(prev, s, caps)] else []
    | .rep lo hi g r =>
      match hi with
      | some 0 => [(prev, s, caps)]
      | _ =>
        if lo > 0 then
          (matchRE f r caps prev s).flatMap fun x =>
            matchRE f (.rep (lo - 1) (decOpt hi) g r) x.2.2 x.1 x.2.1
        else
          let step := (matchRE f r caps prev s).flatMap fun x =>
            if x.2.1.length < s.length then
              matchRE f (.rep 0 (decOpt hi) g r) x.2.2 x.1 x.2.1
            else []
          if g then step ++ [(prev, s, caps)] else (prev, s, caps) :: step

/-- Fuel that always suffices for the source patterns on input `s`. -/
def matchFuel (s : List Char) : Nat := (s.length + 16) * 16

/-- The match CPython's engine reports at this position: the first result
in backtracking order.  Returns (remaining input, captures). -/
def firstMatch (re : RE) (prev s : List Char) : Option (List Char × Caps) :=
  match (matchRE (matchFuel s) re [] prev s).head? with
  | none => none
  | some x => some (x.2.1, x.2.2)

/-- Replacement templates: literal pieces and group references. -/
inductive TItem where
  | lit (cs : List Char)
  | ref (n : Nat)

/-- Expand a replacement template with an unset group expanding to nothing
(the source replacements only reference groups their patterns always set). -/
def expand (t : List TItem) (caps : Caps) : List Char :=
  t.flatMap fun it =>
    match it with
    | .lit cs => cs
    | .ref n => (List.lookup n caps).getD []

/-- `re.sub` scan loop: at each position try an anchored match; replace and
advance past a non-empty match; after an empty match replace, copy one
character and advance (CPython ≥ 3.7 semantics). -/
def subLoop (fuel : Nat) (re : RE) (t : List TItem) (prev s : List Char) :
    List Char :=
  match fuel with
  | 0 => s
  | f + 1 =>
    match firstMatch re prev s with
    | none =>
      match s with
      | [] => []
      | c :: cs => c :: subLoop f re t (c :: prev) cs
    | some (rest, caps) =>
      let repl := expand t caps
      if rest.length == s.length then
        match s with
        | [] => repl
        | c :: cs => repl ++ c :: subLoop f re t (c :: prev) cs
      else
        repl ++ subLoop f re t ((s.take (s.length - rest.length)).reverse ++ prev) rest

/-- Python `re.sub(pattern, template, s)`. -/
def pySub (re : RE) (t : List TItem) (s : String) : String :=
  ⟨subLoop (s.data.length + 1) re t [] s.data⟩

/-! ## `denoiser.py`

Each stage transcribes one function of `denoiser.py`; the regex literals of
the source become `RE` values (same groups, bounds and replacement
templates). -/

/-- The character class `[아어음오우에]`. -/
def korSet (c : Char) : Bool :=
  c == '아' || c == '어' || c == '음' || c == '오' || c == '우' || c == '에'

/-- `\s+`. -/
def spPlus : RE := .rep 1 none true (.cls isSpaceChar)

/-- `\s*`. -/
def spStar : RE := .rep 0 none true (.cls isSpaceChar)

/-- `([아어음오우에]\.\.\.\s*){2,}`. -/
def patInterjDots : RE :=
  .rep 2 none true
    (.grp 1 (cats (.cls korSet) [lit '.', lit '.', lit '.', spStar]))

/-- `\b([아어음오우에])\s+\1(\s+\1)+\b`. -/
def patInterjRun : RE :=
  cats .wordB
    [.grp 1 (.cls korSet), spPlus, .bref 1,
     .rep 1 none true (.grp 2 (.cat spPlus (.bref 1))), .wordB]

/-- `remove_repeated_interjections` (denoiser.py, lines 12–23). -/
def remove_repeated_interjections (text : String) : String :=
  let text := pySub patInterjDots [.ref 1] text
  let text := pySub patInterjRun [.ref 1] text
  text

/-- `\b(\w{2,})(\s+\1){1,}\b`. -/
def patRepeatedWords : RE :=
  cats .wordB
    [.grp 1 (.rep 2 none true (.cls isWordChar)),
     .rep 1 none true (.grp 2 (.cat spPlus (.bref 1))), .wordB]

/-- `remove_repeated_words` (denoiser.py, lines 26–34). -/
def remove_repeated_words (text : String) : String :=
  pySub patRepeatedWords [.ref 1] text

/-- A literal string as a regex (the source only escapes literal text). -/
def litStr (s : String) : RE :=
  match s.data with
  | [] => .rep 0 (some 0) true (.cls fun _ => false)
  | c :: cs => cats (lit c) (cs.map lit)

/-- The filler list of `remove_filler_words_excessive`. -/
def fillersList : List String := ["네네", "응응", "어어", "음음", "그치그치", "맞아맞아"]

/-- `remove_filler_words_excessive` (denoiser.py, lines 37–49): for each
filler, `re.sub('(filler)+', filler, text)`. -/
def remove_filler_words_excessive (text : String) : String :=
  fillersList.foldl
    (fun t f => pySub (.rep 1 none true (.grp 1 (litStr f))) [.lit f.data] t)
    text

/-- `\b(\w{1,2})\.\.\s+\1(\w+)`. -/
def patStutter : RE :=
  cats .wordB
    [.grp 1 (.rep 1 (some 2) true (.cls isWordChar)), lit '.', lit '.',
     spPlus, .bref 1, .grp 2 (.rep 1 none true (.cls isWordChar))]

/-- `remove_stuttering` (denoiser.py, lines 52–60). -/
def remove_stuttering (text : String) : String :=
  pySub patStutter [.ref 1, .ref 2] text

/-- Python `.` (any character but a newline, no DOTALL). -/
def dotAny : RE := .cls (fun c => c != '\n')

/-- `\b(\w)\s+\1\s+\1\b`. -/
def patSingleRepeat : RE :=
  cats .wordB
    [.grp 1 (.cls isWordChar), spPlus, .bref 1, spPlus, .bref 1, .wordB]

/-- `\[.*?\]`. -/
def patBracketNoise : RE :=
  .cat (lit '[') (.cat (.rep 0 none false dotAny) (lit ']'))

/-- `\(.*?\)`. -/
def patParenNoise : RE :=
  .cat (lit '(') (.cat (.rep 0 none false dotAny) (lit ')'))

/-- `\d{1,2}:\d{2}:\d{2}`. -/
def patTime3 : RE :=
  cats (.rep 1 (some 2) true (.cls isDigitChar))
    [lit ':', .rep 2 (some 2) true (.cls isDigitChar),
     lit ':', .rep 2 (some 2) true (.cls isDigitChar)]

/-- `\d{1,2}:\d{2}`. -/
def patTime2 : RE :=
  cats (.rep 1 (some 2) true (.cls isDigitChar))
    [lit ':', .rep 2 (some 2) true (.cls isDigitChar)]

/-- `remove_noise_patterns` (denoiser.py, lines 78–93). -/
def remove_noise_patterns (text : String) : String :=
  let text := pySub patSingleRepeat [.ref 1] text
  let text := pySub patBracketNoise [] text
  let text := pySub patParenNoise [] text
  let text := pySub patTime3 [] text
  let text := pySub patTime2 [] text
  text

/-- `\.{4,}`. -/
def patDots4 : RE := .rep 4 none true (lit '.')

/-- `,{2,}`. -/
def patCommas : RE := .rep 2 none true (lit ',')

/-- `\s+([,.!?])`. -/
def patSpacePunct : RE :=
  .cat spPlus
    (.grp 1 (.cls (fun c => c == ',' || c == '.' || c == '!' || c == '?')))

/-- `clean_punctuation` (denoiser.py, lines 63–75). -/
def clean_punctuation (text : String) : String :=
  let text := pySub patDots4 [.lit "...".data] text
  let text := pySub patCommas [.lit [',']] text
  let text := pySub spPlus [.lit [' ']] text
  let text := pySub patSpacePunct [.ref 1] text
  text

/-- `\n\s*\n`. -/
def patDoubleNl : RE := .cat (lit '\n') (.cat spStar (lit '\n'))

/-- Python `str.strip()` on `String`. -/
def pyStripS (s : String) : String := ⟨pyStrip s.data⟩

/-- `normalize_spacing` (denoiser.py, lines 96–109). -/
def normalize_spacing (text : String) : String :=
  let text := pySub spPlus [.lit [' ']] text
  let text := pyStripS text
  let text := pySub patDoubleNl [.lit ['\n', '\n']] text
  text

/-- The metadata keywords of `preserve_metadata`. -/
def metaKeys : List (List Char) :=
  ["Video ID".data, "Title".data, "Model".data, "Duration".data]

/-- `any(key in line for key in ['Video ID', 'Title', 'Model', 'Duration'])`. -/
def hasAnyKey (l : List Char) : Bool := metaKeys.any (fun k => strContains l k)

/-- `line.strip() == '-' * len(line.strip())`. -/
def stripDashLine (l : List Char) : Bool :=
  pyStrip l == List.replicate (pyStrip l).length '-'

/-- The `for i, line in enumerate(lines)` loop of `preserve_metadata`, with
accumulator `acc` for `metadata_lines` and `cs` for `content_start`;
returns them when the lines run out or the `break` fires. -/
def pmGo : Nat → List (List Char) → Nat → List (List Char) →
    List (List Char) × Nat
  | _, acc, cs, [] => (acc, cs)
  | i, acc, cs, l :: ls =>
    if strContains l [':'] && decide (i < 10) then
      if hasAnyKey l then pmGo (i + 1) (acc ++ [l]) (i + 1) ls
      else if stripDashLine l then (acc ++ [l], i + 1)
      else pmGo (i + 1) acc cs ls
    else pmGo (i + 1) acc cs ls

/-- `preserve_metadata` (denoiser.py, lines 112–135). -/
def preserve_metadata (text : String) : String × String :=
  let lines := pySplit text.data
  let r := pmGo 0 [] 0 lines
  (⟨joinN r.1⟩, ⟨joinN (lines.drop r.2)⟩)

/-- The aggressive-mode filler pattern `\b<word>\s+` for a word given as a
character list. -/
def aggrPat (w : List Char) : RE :=
  .cat .wordB (cats (litStr ⟨w⟩) [spPlus])

/-- The `fillers_to_remove` patterns of `denoise_transcript`'s aggressive
mode, in source order. -/
def aggrPats : List RE :=
  [aggrPat ['아'], aggrPat ['어'], aggrPat ['음'], aggrPat ['으'],
   aggrPat ['그'], aggrPat ['이', '제'], aggrPat ['좀'], aggrPat ['뭐']]

/-- The content pipeline of `denoise_transcript` (denoiser.py, lines
152–169): the seven passes in source order, then, in aggressive mode, the
filler removals and a final `normalize_spacing`. -/
def denoiseContent (content : String) (aggressive : Bool) : String :=
  let content := remove_repeated_interjections content
  let content := remove_repeated_words content
  let content := remove_filler_words_excessive content
  let content := remove_stuttering content
  let content := remove_noise_patterns content
  let content := clean_punctuation content
  let content := normalize_spacing content
  if aggressive then
    normalize_spacing (aggrPats.foldl (fun t p => pySub p [] t) content)
  else content

/-- `denoise_transcript` (denoiser.py, lines 138–175). -/
def denoise_transcript (text : String) (aggressive : Bool) : String :=
  let md := preserve_metadata text
  let content := denoiseContent md.2 aggressive
  if md.1 = "" then content else md.1 ++ "\n\n" ++ content

/-- The C1 claim's composition, following the spec's words: split with
`preserve_metadata`, fold the seven stateless passes over the content in
the stated order, and reattach non-empty metadata with a blank line. -/
def denoiserStages : List (String → String) :=
  [remove_repeated_interjections, remove_repeated_words,
   remove_filler_words_excessive, remove_stuttering, remove_noise_patterns,
   clean_punctuation, normalize_spacing]

/-- C1's spec-side pipeline. -/
def denoiseSpecC1 (text : String) : String :=
  let md := preserve_metadata text
  let r := denoiserStages.foldl (fun acc f => f acc) md.2
  if md.1 = "" then r else md.1 ++ "\n\n" ++ r

/-! ## `stt_whisper.py`: the transcript writer -/

/-- The `'-' * 80` separator line written by `test_whisper_single_video`. -/
def dashLine : String := ⟨List.replicate 80 '-'⟩

/-- The transcript file contents written by `test_whisper_single_video`
(stt_whisper.py, lines 117–123): three header lines, the 80-dash
separator, a blank line, then the transcript. -/
def writtenTranscript (vid title ms transcript : String) : String :=
  "Video ID: " ++ vid ++ "\n" ++ "Title: " ++ title ++ "\n" ++
    "Model: whisper-" ++ ms ++ "\n" ++ dashLine ++ "\n" ++ "\n" ++ transcript

/-! ## A JSON value model for the loaders and the backfiller

`JVal` models the Python values `json.load` can produce.  Python's dynamic
operations (`in`, subscription, `.get`, `len`, iteration) are modelled as
partial functions whose `none`/`error` outcome is the `TypeError` /
`KeyError` / `AttributeError` the interpreter would raise. -/

/-- JSON values as loaded by `json.load`. -/
inductive JVal where
  | null
  | bool (b : Bool)
  | num (n : Int)
  | str (s : String)
  | arr (xs : List JVal)
  | obj (kvs : List (String × JVal))

/-- Python truthiness-falsity (`not v`) of a JSON value. -/
def jFalsy : JVal → Bool
  | .null => true
  | .bool b => !b
  | .num n => n == 0
  | .str s => s.isEmpty
  | .arr xs => xs.isEmpty
  | .obj kvs => kvs.isEmpty

/-- Python `k in v` for a string key: key test on dicts, membership on
lists (a list element equals the string key only when it is that string),
substring test on strings, `TypeError` otherwise. -/
def pyInStr (k : String) : JVal → Except Unit Bool
  | .obj kvs => .ok (kvs.any (fun kv => kv.1 == k))
  | .arr xs =>
    .ok (xs.any (fun x => match x with | .str s => s == k | _ => false))
  | .str s => .ok (strContains s.data k.data)
  | _ => .error ()

/-- Python `v[k]` for a string key: dict lookup (`KeyError` when absent),
`TypeError` on every other value. -/
def pySubscr (v : JVal) (k : String) : Except Unit JVal :=
  match v with
  | .obj kvs =>
    match List.lookup k kvs with
    | some x => .ok x
    | none => .error ()
  | _ => .error ()

/-- Python `v.get(k)`: `None` default on dicts, `AttributeError` on every
other value. -/
def pyGetAttr (v : JVal) (k : String) : Except Unit JVal :=
  match v with
  | .obj kvs => .ok ((List.lookup k kvs).getD .null)
  | _ => .error ()

/-- Python `len(v)`: defined on lists, strings and dicts, `TypeError`
otherwise. -/
def pyLenJ : JVal → Option Nat
  | .arr xs => some xs.length
  | .str s => some s.length
  | .obj kvs => some kvs.length
  | _ => Option.none

/-- Python `for item in v`: list elements, the characters of a string (as
one-character strings), the keys of a dict; `TypeError` otherwise. -/
def pyIterJ : JVal → Option (List JVal)
  | .arr xs => some xs
  | .str s => some (s.data.map (fun c => .str ⟨[c]⟩))
  | .obj kvs => some (kvs.map (fun kv => .str kv.1))
  | _ => Option.none

/-! ## The duplicated `load_video_ids` loaders (batch_sst.py / batch_stt.py)

The input is the state of the videos-JSON file: missing, unparseable, or a
parsed document.  Each loader transcribes its own file's function; the
trailing `len(video_ids)` of the success `print` is the last operation
that can raise before `return`. -/

/-- The state of the videos JSON file as the loaders see it. -/
inductive LoadSrc where
  | missing
  | parseError
  | ok (v : JVal)

/-- The shared `video_ids.append(...)` extraction loop over a list of
items: dicts contribute their `'video_id'` value, strings contribute
themselves, anything else is skipped. -/
def extractIdsFromItems (items : List JVal) : List JVal :=
  items.foldl
    (fun acc it =>
      match it with
      | .obj kvs =>
        match List.lookup "video_id" kvs with
        | some v => acc ++ [v]
        | none => acc
      | .str s => acc ++ [.str s]
      | _ => acc)
    []

/-- The `try` body of `BatchWhisperProcessor.load_video_ids` in
batch_stt.py (lines 150–174) after a successful `json.load`: build
`video_ids`, then evaluate `len(video_ids)` for the success message. -/
def loadBodyStt (data : JVal) : Except Unit JVal :=
  let vids : Except Unit JVal :=
    match data with
    | .arr items => .ok (.arr (extractIdsFromItems items))
    | .obj kvs =>
      if kvs.any (fun kv => kv.1 == "videos") then
        match pyIterJ ((List.lookup "videos" kvs).getD .null) with
        | Option.none => .error ()
        | some items => .ok (.arr (extractIdsFromItems items))
      else if kvs.any (fun kv => kv.1 == "video_ids") then
        .ok ((List.lookup "video_ids" kvs).getD .null)
      else .ok (.arr [])
    | _ => .ok (.arr [])
  match vids with
  | .error e => .error e
  | .ok v =>
    match pyLenJ v with
    | Option.none => .error ()
    | some _ => .ok v

/-- `BatchWhisperProcessor.load_video_ids` of batch_stt.py (lines
143–178): a single `except Exception` returns `[]` on a missing file, a
parse error, or any body exception. -/
def load_video_ids_stt (src : LoadSrc) : JVal :=
  match src with
  | .missing => .arr []
  | .parseError => .arr []
  | .ok data =>
    match loadBodyStt data with
    | .error _ => .arr []
    | .ok v => v

/-- The `try` body of `BatchWhisperProcessor.load_video_ids` in
batch_sst.py (lines 64–93) after a successful `json.load`; the extraction
is line-for-line the same as batch_stt.py's. -/
def loadBodySst (data : JVal) : Except Unit JVal :=
  let vids : Except Unit JVal :=
    match data with
    | .arr items => .ok (.arr (extractIdsFromItems items))
    | .obj kvs =>
      if kvs.any (fun kv => kv.1 == "videos") then
        match pyIterJ ((List.lookup "videos" kvs).getD .null) with
        | Option.none => .error ()
        | some items => .ok (.arr (extractIdsFromItems items))
      else if kvs.any (fun kv => kv.1 == "video_ids") then
        .ok ((List.lookup "video_ids" kvs).getD .null)
      else .ok (.arr [])
    | _ => .ok (.arr [])
  match vids with
  | .error e => .error e
  | .ok v =>
    match pyLenJ v with
    | Option.none => .error ()
    | some _ => .ok v

/-- `BatchWhisperProcessor.load_video_ids` of batch_sst.py (lines 57–100):
`except json.JSONDecodeError` returns `[]`, and `except Exception` returns
`[]`, on top of the missing-file early return. -/
def load_video_ids_sst (src : LoadSrc) : JVal :=
  match src with
  | .missing => .arr []
  | .parseError => .arr []
  | .ok data =>
    match loadBodySst data with
    | .error _ => .arr []
    | .ok v => v

/-! ## `backfill_comments.py` -/

/-- The effects one `backfill_file` call can observe: the outcome of
`load_json_file` (read/parse exceptions collapse to `error`), the comments
`get_comments` returns (it catches its own API errors and returns the list
collected so far), and whether `save_json_file` raises. -/
structure BFEnv where
  load : Except Unit JVal
  comments : List JVal
  saveFails : Bool

/-- `CommentBackfiller.needs_backfill` (backfill_comments.py, lines
100–111): `'comments' not in data or not data['comments']`, with Python's
short-circuit and dynamic-type errors. -/
def needs_backfill (data : JVal) : Except Unit Bool := do
  let hasC ← pyInStr "comments" data
  if !hasC then return true
  else do
    let v ← pySubscr data "comments"
    return (jFalsy v)

/-- `CommentBackfiller.backfill_file` (backfill_comments.py, lines
113–153): the whole body is one `try`, and `except Exception` returns
`False`. -/
def backfill_file (env : BFEnv) : Bool :=
  let body : Except Unit Bool := do
    let data ← env.load
    let nb ← needs_backfill data
    if !nb then return false
    else do
      let vid ← pyGetAttr data "video_id"
      if jFalsy vid then return false
      else if env.saveFails then .error ()
      else return true
  match body with
  | .ok b => b
  | .error _ => false

/-- The counters of `CommentBackfiller.backfill_all`. -/
structure BFCounts where
  backfilled : Nat
  skippedN : Nat
  failedN : Nat

/-- The per-file counter dispatch of `backfill_all` (backfill_comments.py,
lines 175–185): `if result is True: … elif result is False: … else:
failed += 1`. -/
def backfillClassify (c : BFCounts) (r : Bool) : BFCounts :=
  if r == true then { c with backfilled := c.backfilled + 1 }
  else if r == false then { c with skippedN := c.skippedN + 1 }
  else { c with failedN := c.failedN + 1 }

/-- `CommentBackfiller.backfill_all` (backfill_comments.py, lines
155–195), over the directory's files given as their observed effects. -/
def backfill_all (envs : List BFEnv) : BFCounts :=
  envs.foldl (fun c e => backfillClassify c (backfill_file e)) ⟨0, 0, 0⟩

/-! ## `process_video_wrapper` (batch_stt.py, lines 45–100) -/

/-- Python values appearing in the wrapper's result dict. -/
inductive PVal where
  | s (v : String)
  | b (v : Bool)
  | pnone
  | q (v : ℚ)
deriving DecidableEq

/-- The behaviour of the `test_whisper_single_video` call as the wrapper
observes it: a returned boolean, a raised `MemoryError`, or another raised
`Exception`. -/
inductive TOut where
  | ok (b : Bool)
  | memErr (m : String)
  | exnErr (m : String)

/-- Everything `process_video_wrapper` observes from outside. -/
structure WEnv where
  videoId : String
  alreadyExists : Bool
  memPercent : ℚ
  transcribe : TOut
  elapsed : ℚ

/-- Python dict assignment `d[k] = v`: update in place when the key
exists, append otherwise. -/
def dictSet (d : List (String × PVal)) (k : String) (v : PVal) :
    List (String × PVal) :=
  if d.any (fun kv => kv.1 == k) then
    d.map (fun kv => if kv.1 == k then (k, v) else kv)
  else d ++ [(k, v)]

/-- `process_video_wrapper` (batch_stt.py, lines 45–100).  Returns the
result dict together with a ghost flag recording whether the
`test_whisper_single_video` call was reached.  The interpolated memory
percentage of the low-memory message is abbreviated to its fixed text. -/
def process_video_wrapper (env : WEnv) : List (String × PVal) × Bool :=
  let result : List (String × PVal) :=
    [("video_id", .s env.videoId), ("success", .b false), ("error", .pnone),
     ("duration", .q 0), ("skipped", .b false)]
  if env.alreadyExists then
    (dictSet (dictSet result "success" (.b true)) "skipped" (.b true), false)
  else if env.memPercent > 90 then
    -- `return result` inside `try` still runs `finally`, which sets the
    -- duration from `time.time() - start_time`.
    (dictSet (dictSet result "error" (.s "시스템 메모리 부족")) "duration"
      (.q env.elapsed), false)
  else
    match env.transcribe with
    | .ok b =>
      (dictSet
        (dictSet (dictSet result "duration" (.q env.elapsed)) "success" (.b b))
        "duration" (.q env.elapsed), true)
    | .memErr m =>
      (dictSet (dictSet result "error" (.s ("메모리 부족: " ++ m))) "duration"
        (.q env.elapsed), true)
    | .exnErr m =>
      (dictSet (dictSet result "error" (.s m)) "duration" (.q env.elapsed),
        true)

/-- The C7 claim as a Boolean check on one wrapper run: the dict has
exactly the five keys in order; an existing output file yields
`success=True`, `skipped=True` without invoking transcription; otherwise
memory above 90 % yields `success=False` with a non-`None` error without
invoking transcription. -/
def wrapperSpecOk (env : WEnv) : Bool :=
  let r := process_video_wrapper env
  (r.1.map Prod.fst == ["video_id", "success", "error", "duration", "skipped"]) &&
  (if env.alreadyExists then
    (List.lookup "success" r.1 == some (.b true)) &&
    (List.lookup "skipped" r.1 == some (.b true)) && (r.2 == false)
  else if env.memPercent > 90 then
    (List.lookup "success" r.1 == some (.b false)) &&
    (List.lookup "error" r.1 != some PVal.pnone) && (r.2 == false)
  else true)

/-! ## `BatchWhisperProcessor.process_batch` (batch_stt.py, lines 191–366)

The loop is embedded as a deterministic transition system driven by an
oracle `BEnv`: successive `get_memory_usage()` readings, successive reads
of `shutdown_requested`, which active futures each poll round finds done,
and each submitted task's outcome.  The while loop takes a fuel (a real
run ends when the pool drains; every safety claim below holds at every
fuel).  Ghost fields (`submitted`, `maxActive`, `events`) record the
run's history without influencing it. -/

/-- A collected result dict, as `process_batch` consults it. -/
structure BRes where
  success : Bool
  skipped : Bool
  error : Option String

/-- A future's outcome: the wrapper's dict, or the exception
`future.result()` re-raises. -/
inductive BOut where
  | ok (r : BRes)
  | exn (m : String)

/-- The oracle for one `process_batch` run. -/
structure BEnv where
  memStream : Nat → ℚ
  shutStream : Nat → Bool
  doneSel : Nat → Nat → Bool
  outcome : Nat → BOut

/-- Trace events: a pool submission (with the `check_system_resources`
reading that guarded it, `none` for the unguarded initial batch, plus the
ambient memory a probe at that instant would return), a collected future,
and a 10-second checkpoint sleep. -/
inductive BEv where
  | submit (tok : Nat) (vid : String) (guard : Option ℚ) (ambient : ℚ)
  | collect (tok : Nat) (vid : String)
  | sleep10 (m : ℚ)

/-- The loop state of `process_batch`. -/
structure BSt where
  pending : List String
  active : List (Nat × String)
  nextTok : Nat
  memClock : Nat
  shutClock : Nat
  pollRound : Nat
  completed : Nat
  succ : Nat
  failedN : Nat
  skippedN : Nat
  memWarnings : Nat
  errors : List (String × String)
  submitted : List String
  maxActive : Nat
  events : List BEv

/-- `executor.submit(process_video_wrapper, video_id, …)` plus the
bookkeeping `active_futures[future] = video_id`. -/
def pushSubmit (env : BEnv) (g : Option ℚ) (v : String) (st : BSt) : BSt :=
  let act := st.active ++ [(st.nextTok, v)]
  { st with
    active := act
    nextTok := st.nextTok + 1
    submitted := st.submitted ++ [v]
    maxActive := max st.maxActive act.length
    events := st.events ++ [BEv.submit st.nextTok v g (env.memStream st.memClock)] }

/-- `video_id = active_futures.pop(future); completed += 1`
(batch_stt.py, lines 270–271), with the ghost collect event. -/
def recordCollect (st : BSt) (it : Nat × String) : BSt :=
  { st with
    completed := st.completed + 1
    events := st.events ++ [BEv.collect it.1 it.2] }

/-- The result classification (batch_stt.py, lines 279–292): skipped
first, then success, else failed with an error entry. -/
def classifyStep (st : BSt) (it : Nat × String) (r : BRes) : BSt :=
  if r.skipped then { st with skippedN := st.skippedN + 1 }
  else if r.success then { st with succ := st.succ + 1 }
  else
    { st with
      failedN := st.failedN + 1
      errors := st.errors ++ [(it.2, r.error.getD "Unknown error")] }

/-- The every-5-completions resource checkpoint (batch_stt.py, lines
294–301): probe memory and sleep 10 seconds when above the threshold. -/
def checkpointStep (env : BEnv) (thr : ℚ) (st : BSt) : BSt :=
  if st.completed % 5 == 0 then
    let m := env.memStream st.memClock
    let st := { st with memClock := st.memClock + 1 }
    if m > thr then
      { st with
        memWarnings := st.memWarnings + 1
        events := st.events ++ [BEv.sleep10 m] }
    else st
  else st

/-- The replacement submission (batch_stt.py, lines 303–312):
`if pending_videos and self.check_system_resources(): submit(pop(0))`. -/
def replaceStep (env : BEnv) (thr : ℚ) (st : BSt) : BSt :=
  match st.pending with
  | [] => st
  | v :: rest =>
    let m := env.memStream st.memClock
    let st := { st with memClock := st.memClock + 1 }
    if m > thr then st
    else pushSubmit env (some m) v { st with pending := rest }

/-- One completed future's processing (batch_stt.py, lines 269–320):
count it, classify the result (or the exception) into the stats, run the
checkpoint, then maybe submit one replacement task; the `except` branch
(lines 314–320) only records the failure. -/
def collectOne (env : BEnv) (thr : ℚ) (st : BSt) (it : Nat × String) : BSt :=
  let st := recordCollect st it
  match env.outcome it.1 with
  | .exn m =>
    { st with failedN := st.failedN + 1, errors := st.errors ++ [(it.2, m)] }
  | .ok r => replaceStep env thr (checkpointStep env thr (classifyStep st it r))

/-- The initial-batch submission loop (batch_stt.py, lines 252–262):
`initial_batch` iterations of `if pending_videos and not
shutdown_requested: submit(pending_videos.pop(0))` — no memory check. -/
def initLoop (env : BEnv) : Nat → BSt → BSt
  | 0, st => st
  | k + 1, st =>
    match st.pending with
    | [] => initLoop env k st
    | v :: rest =>
      let sh := env.shutStream st.shutClock
      let st := { st with shutClock := st.shutClock + 1 }
      if sh then initLoop env k st
      else initLoop env k (pushSubmit env Option.none v { st with pending := rest })

/-- The collection loop (batch_stt.py, lines 265–324): while futures are
active and no shutdown was requested, snapshot the done futures, pop each
from `active_futures` and process it. -/
def whileLoop (env : BEnv) (thr : ℚ) : Nat → BSt → BSt
  | 0, st => st
  | f + 1, st =>
    match st.active with
    | [] => st
    | _ :: _ =>
      let sh := env.shutStream st.shutClock
      let st := { st with shutClock := st.shutClock + 1 }
      if sh then st
      else
        let dn := st.active.filter (fun p => env.doneSel st.pollRound p.1)
        let st := { st with
          active := st.active.filter (fun p => !(env.doneSel st.pollRound p.1))
          pollRound := st.pollRound + 1 }
        let st := dn.foldl (collectOne env thr) st
        whileLoop env thr f st

/-- The all-zero starting state on a given id list. -/
def initSt (videoIds : List String) : BSt :=
  { pending := videoIds, active := [], nextTok := 0, memClock := 0,
    shutClock := 0, pollRound := 0, completed := 0, succ := 0, failedN := 0,
    skippedN := 0, memWarnings := 0, errors := [], submitted := [],
    maxActive := 0, events := [] }

/-- `process_batch` on an explicit id list (batch_stt.py, lines 191–366):
the empty-list early return, the banner's `get_memory_usage()`, the
initial batch of `min(max_workers * 2, len(pending))` submissions, then
the collection loop. -/
def processBatch (env : BEnv) (videoIds : List String) (maxWorkers : Nat)
    (thr : ℚ) (fuel : Nat) : BSt :=
  match videoIds with
  | [] => initSt videoIds
  | _ :: _ =>
    let st0 := initSt videoIds
    let st0 := { st0 with memClock := st0.memClock + 1 }
    let ib := min (maxWorkers * 2) st0.pending.length
    whileLoop env thr fuel (initLoop env ib st0)

/-- C2's headline reading as a Boolean trace check: no task is ever
submitted while the ambient memory reading exceeds the threshold. -/
def headlineC2 (thr : ℚ) (evs : List BEv) : Bool :=
  evs.all fun e =>
    match e with
    | .submit _ _ _ amb => decide (amb ≤ thr)
    | _ => true

/-- The guard discipline of one event: a guarded submission's
`check_system_resources` reading is at or below the threshold, and a
checkpoint sleep's reading is above it. -/
def guardOkEv (thr : ℚ) : BEv → Bool
  | .submit _ _ (some m) _ => decide (m ≤ thr)
  | .submit _ _ Option.none _ => true
  | .sleep10 m => decide (thr < m)
  | .collect _ _ => true

/-- Every event of a trace obeys the guard discipline. -/
def loopGuardsOk (thr : ℚ) (evs : List BEv) : Bool := evs.all (guardOkEv thr)

/-- The number of unguarded (initial-batch) submissions in a trace. -/
def countNoneSubmits (evs : List BEv) : Nat :=
  (evs.filter fun e =>
    match e with
    | .submit _ _ Option.none _ => true
    | _ => false).length

/-- The number of collected futures in a trace. -/
def countCollect (evs : List BEv) : Nat :=
  (evs.filter fun e =>
    match e with
    | .collect _ _ => true
    | _ => false).length

/-! ## Statement-support definitions -/

/-- `preserve_metadata`'s loop with the dash-separator `elif` branch (and
its `break`) removed — the claim C10 comparison point. -/
def pmGoNoDash : Nat → List (List Char) → Nat → List (List Char) →
    List (List Char) × Nat
  | _, acc, cs, [] => (acc, cs)
  | i, acc, cs, l :: ls =>
    if strContains l [':'] && decide (i < 10) then
      if hasAnyKey l then pmGoNoDash (i + 1) (acc ++ [l]) (i + 1) ls
      else pmGoNoDash (i + 1) acc cs ls
    else pmGoNoDash (i + 1) acc cs ls

/-- `preserve_metadata` with the unreachable dash branch removed. -/
def preserve_metadata_noDash (text : String) : String × String :=
  let lines := pySplit text.data
  let r := pmGoNoDash 0 [] 0 lines
  (⟨joinN r.1⟩, ⟨joinN (lines.drop r.2)⟩)

/-- The `metadata_lines` list `preserve_metadata` accumulates. -/
def metaLinesOf (text : String) : List (List Char) :=
  (pmGo 0 [] 0 (pySplit text.data)).1

/-- C6's proviso on one body line: not both a colon and a metadata
keyword. -/
def bodyLineOk (l : List Char) : Bool := !(strContains l [':'] && hasAnyKey l)

/-- The string has no newline character. -/
def noNewlineS (s : String) : Bool := s.data.all (fun c => !(c == '\n'))

/-- C2's counterexample oracle: every memory reading is 100 %, no
shutdown, every future done at once, every task succeeds. -/
def env100 : BEnv :=
  { memStream := fun _ => 100
    shutStream := fun _ => false
    doneSel := fun _ _ => true
    outcome := fun _ => .ok ⟨true, false, Option.none⟩ }

/-! # Theorems -/

/-- C1: for every input string, `denoise_transcript(text, aggressive=False)`
equals the composition: split with `preserve_metadata`, apply the seven
stateless regex passes to the content in the fixed source order, and
return `metadata + '\n\n' + result` when the metadata is non-empty, the
result alone otherwise. -/
theorem c1_denoise_is_stage_composition (text : String) :
    denoise_transcript text false = denoiseSpecC1 text := rfl

/-! ### Lemmas on `strContains`, `pyStrip` and the dash test -/

theorem isPrefixList_append (n a b : List Char)
    (h : isPrefixList n a = true) : isPrefixList n (a ++ b) = true := by
  induction n generalizing a with
  | nil => simp [isPrefixList]
  | cons x xs ih =>
    cases a with
    | nil => simp [isPrefixList] at h
    | cons y ys =>
      simp only [isPrefixList, Bool.and_eq_true] at h ⊢
      exact ⟨h.1, ih ys h.2⟩

theorem strContains_nil_needle (l : List Char) : strContains l [] = true := by
  induction l with
  | nil => rfl
  | cons c t ih => simp [strContains, isPrefixList]

theorem strContains_append_left (a b n : List Char)
    (h : strContains a n = true) : strContains (a ++ b) n = true := by
  induction a with
  | nil =>
    simp only [strContains, List.isEmpty_iff] at h
    subst h
    simpa using strContains_nil_needle b
  | cons c t ih =>
    simp only [strContains, Bool.or_eq_true] at h ⊢
    rcases h with h | h
    · exact Or.inl (isPrefixList_append _ _ _ h)
    · exact Or.inr (ih h)

theorem mem_of_strContains_single (l : List Char) (c : Char)
    (h : strContains l [c] = true) : c ∈ l := by
  induction l with
  | nil => simp [strContains] at h
  | cons a t ih =>
    simp only [strContains, isPrefixList, Bool.or_eq_true,
      Bool.and_eq_true, beq_iff_eq] at h
    rcases h with ⟨h, -⟩ | h
    · exact h ▸ List.mem_cons_self a t
    · exact List.mem_cons_of_mem a (ih h)

theorem strContains_single_of_mem (l : List Char) (c : Char) (h : c ∈ l) :
    strContains l [c] = true := by
  induction l with
  | nil => simp at h
  | cons a t ih =>
    rcases List.mem_cons.mp h with h | h
    · simp [strContains, isPrefixList, h]
    · simp [strContains, ih h]

theorem mem_dropWhile_of_mem (p : Char → Bool) (l : List Char) (c : Char)
    (hm : c ∈ l) (hp : p c = false) : c ∈ l.dropWhile p := by
  induction l with
  | nil => simp at hm
  | cons a t ih =>
    by_cases ha : p a = true
    · rw [List.dropWhile_cons_of_pos ha]
      rcases List.mem_cons.mp hm with h | h
      · subst h; rw [hp] at ha; exact absurd ha (by simp)
      · exact ih h
    · rw [List.dropWhile_cons_of_neg ha]
      exact hm

theorem mem_pyStrip_of_mem (l : List Char) (c : Char) (hm : c ∈ l)
    (hp : isSpaceChar c = false) : c ∈ pyStrip l := by
  unfold pyStrip
  have h1 := mem_dropWhile_of_mem isSpaceChar l c hm hp
  have h2 : c ∈ (l.dropWhile isSpaceChar).reverse := List.mem_reverse.mpr h1
  have h3 := mem_dropWhile_of_mem isSpaceChar _ c h2 hp
  exact List.mem_reverse.mpr h3

/-- A line containing a colon never strips to an all-dash (or empty)
string: the colon survives `strip()` and is not a dash. -/
theorem stripDashLine_eq_false_of_colon (l : List Char)
    (h : strContains l [':'] = true) : stripDashLine l = false := by
  have hc : ':' ∈ l := mem_of_strContains_single l ':' h
  have hs : ':' ∈ pyStrip l := mem_pyStrip_of_mem l ':' hc (by decide)
  unfold stripDashLine
  by_contra hb
  have hb' : pyStrip l = List.replicate (pyStrip l).length '-' := by
    have := Bool.not_eq_false _ ▸ hb
    exact eq_of_beq (by revert this; cases pyStrip l == List.replicate (pyStrip l).length '-' <;> simp)
  rw [hb'] at hs
  have := List.eq_of_mem_replicate hs
  simp at this

/-! ### C10: the dash branch of `preserve_metadata` is unreachable -/

theorem pmGo_eq_noDash (ls : List (List Char)) :
    ∀ i acc cs, pmGo i acc cs ls = pmGoNoDash i acc cs ls := by
  induction ls with
  | nil => intro i acc cs; rfl
  | cons l t ih =>
    intro i acc cs
    by_cases hc : (strContains l [':'] && decide (i < 10)) = true
    · have hcol : strContains l [':'] = true := by
        have h' := hc
        simp only [Bool.and_eq_true] at h'
        exact h'.1
      by_cases hk : hasAnyKey l = true
      · simp [pmGo, pmGoNoDash, hc, hk, ih]
      · simp [pmGo, pmGoNoDash, hc, hk,
          stripDashLine_eq_false_of_colon l hcol, ih]
    · simp [pmGo, pmGoNoDash, hc, ih]

theorem pmGo_acc_colon (ls : List (List Char)) :
    ∀ i acc cs, (acc.all fun l => strContains l [':']) = true →
      ((pmGo i acc cs ls).1.all fun l => strContains l [':']) = true := by
  induction ls with
  | nil => intro i acc cs h; exact h
  | cons l t ih =>
    intro i acc cs h
    by_cases hc : (strContains l [':'] && decide (i < 10)) = true
    · have hcol : strContains l [':'] = true := by
        have h' := hc
        simp only [Bool.and_eq_true] at h'
        exact h'.1
      have hacc : ((acc ++ [l]).all fun l => strContains l [':']) = true := by
        simp [List.all_append, h, hcol]
      by_cases hk : hasAnyKey l = true
      · simpa [pmGo, hc, hk] using ih _ _ _ hacc
      · simp [pmGo, hc, hk, stripDashLine_eq_false_of_colon l hcol,
          ih _ _ _ h]
    · simpa [pmGo, hc] using ih _ _ _ h

/-- C10: in `preserve_metadata` the dash-separator `elif` branch (and its
`break`) is unreachable — removing it changes nothing — and every line
accumulated into `metadata_lines` contains a colon, so a dash separator
line is always classified into the content part. -/
theorem c10_dash_branch_unreachable (text : String) :
    preserve_metadata text = preserve_metadata_noDash text ∧
      ((metaLinesOf text).all fun l => strContains l [':']) = true := by
  constructor
  · unfold preserve_metadata preserve_metadata_noDash
    simp only [pmGo_eq_noDash]
  · exact pmGo_acc_colon _ 0 [] 0 rfl

/-- C5: the duplicated loaders are extensionally equal — for every file
state (missing, unparseable, or any parsed JSON document of any shape)
`load_video_ids` of batch_sst.py and of batch_stt.py return the same
value, and both failure cases return the empty list. -/
theorem c5_duplicated_loaders_equal :
    (∀ src : LoadSrc, load_video_ids_sst src = load_video_ids_stt src) ∧
      load_video_ids_sst LoadSrc.missing = JVal.arr [] ∧
      load_video_ids_sst LoadSrc.parseError = JVal.arr [] := by
  refine ⟨fun src => ?_, rfl, rfl⟩
  cases src <;> rfl

/-! ### C9: the backfiller's failed counter -/

theorem backfill_fold_counts (envs : List BFEnv) :
    ∀ c : BFCounts,
      (envs.foldl (fun c e => backfillClassify c (backfill_file e)) c).failedN
          = c.failedN ∧
        (envs.foldl (fun c e => backfillClassify c (backfill_file e)) c).backfilled
            + (envs.foldl (fun c e => backfillClassify c (backfill_file e)) c).skippedN
          = c.backfilled + c.skippedN + envs.length := by
  induction envs with
  | nil => intro c; simp
  | cons e t ih =>
    intro c
    have hstep : ∀ r : Bool, (backfillClassify c r).failedN = c.failedN ∧
        (backfillClassify c r).backfilled + (backfillClassify c r).skippedN
          = c.backfilled + c.skippedN + 1 := by
      intro r
      cases r <;> simp [backfillClassify] <;> omega
    rcases ih (backfillClassify c (backfill_file e)) with ⟨h1, h2⟩
    rcases hstep (backfill_file e) with ⟨h3, h4⟩
    refine ⟨?_, ?_⟩
    · simpa [List.foldl_cons, h3] using h1
    · simp only [List.foldl_cons] at h2 ⊢
      rw [h2, h4]
      simp [Nat.add_assoc, Nat.add_comm]
      omega

/-- C9: `backfill_file` is total with a Boolean result (every exception is
caught and becomes `False`), so `backfill_all`'s `else` failure branch is
unreachable: the reported failed count is 0 on every run, and every file
is counted as backfilled or skipped. -/
theorem c9_backfill_failed_always_zero (envs : List BFEnv) :
    (backfill_all envs).failedN = 0 ∧
      (backfill_all envs).backfilled + (backfill_all envs).skippedN
        = envs.length := by
  have h := backfill_fold_counts envs ⟨0, 0, 0⟩
  unfold backfill_all
  exact ⟨h.1, by simpa using h.2⟩

/-- C7: `process_video_wrapper` is total and reports errors as data — its
result dict has exactly the keys `video_id`, `success`, `error`,
`duration`, `skipped` for every environment and every behaviour of the
transcription call; an existing output file yields `success=True`,
`skipped=True` without invoking transcription; otherwise memory above
90 % yields `success=False` with a non-`None` error without invoking
transcription. -/
theorem c7_wrapper_total_and_keyed (env : WEnv) : wrapperSpecOk env = true := by
  obtain ⟨vid, ae, mp, tr, el⟩ := env
  cases ae with
  | true => rfl
  | false =>
    by_cases h : mp > 90
    · simp [wrapperSpecOk, process_video_wrapper, dictSet, List.lookup, h]
    · cases tr <;>
        simp [wrapperSpecOk, process_video_wrapper, dictSet, List.lookup, h]

/-! ### C6: the writer format and `preserve_metadata` round-trip -/

theorem not_mem_of_noNewlineS (s : String) (h : noNewlineS s = true) :
    '\n' ∉ s.data := by
  intro hm
  have := List.all_eq_true.mp h '\n' hm
  simp at this

theorem pySplit_append_nl (a : List Char) (r : List Char)
    (h : '\n' ∉ a) : pySplit (a ++ '\n' :: r) = a :: pySplit r := by
  induction a with
  | nil => simp [pySplit]
  | cons c t ih =>
    have hc : (c == '\n') = false := by
      simp only [beq_eq_false_iff_ne, ne_eq]
      intro hcn
      exact h (hcn ▸ List.mem_cons_self c t)
    have ht : '\n' ∉ t := fun hm => h (List.mem_cons_of_mem c hm)
    simp only [List.cons_append, pySplit, hc, Bool.false_eq_true, if_false,
      List.append_eq]
    rw [ih ht]

theorem pySplit_ne_nil (l : List Char) : pySplit l ≠ [] := by
  cases l with
  | nil => simp [pySplit]
  | cons c t =>
    by_cases hc : (c == '\n') = true
    · simp [pySplit, hc]
    · simp only [pySplit, hc, Bool.false_eq_true, if_false]
      cases pySplit t <;> simp

theorem joinN_cons_of_ne_nil (l : List Char) (ls : List (List Char))
    (h : ls ≠ []) : joinN (l :: ls) = l ++ '\n' :: joinN ls := by
  cases ls with
  | nil => exact absurd rfl h
  | cons x xs => rfl

theorem joinN_pySplit (l : List Char) : joinN (pySplit l) = l := by
  induction l with
  | nil => rfl
  | cons c t ih =>
    by_cases hc : (c == '\n') = true
    · have hceq : c = '\n' := by simpa using hc
      rw [pySplit, if_pos hc,
        joinN_cons_of_ne_nil _ _ (pySplit_ne_nil t), ih, hceq]
      rfl
    · rw [pySplit, if_neg (by simpa using hc)]
      rcases hps : pySplit t with _ | ⟨h', r⟩
      · exact absurd hps (pySplit_ne_nil t)
      · rw [hps] at ih
        cases r with
        | nil => simpa [joinN] using congrArg (c :: ·) ih
        | cons y ys =>
          have : joinN ((c :: h') :: y :: ys) = c :: joinN (h' :: y :: ys) := rfl
          rw [this, ih]

/-- Once the line index reaches the body (and every body line among the
first ten file lines is unremarkable), the loop leaves its state alone. -/
theorem pmGo_skip (ls : List (List Char)) :
    ∀ i acc cs, (∀ l ∈ ls.take (10 - i), bodyLineOk l = true) →
      pmGo i acc cs ls = (acc, cs) := by
  induction ls with
  | nil => intro i acc cs _; rfl
  | cons l t ih =>
    intro i acc cs h
    by_cases hi : i < 10
    · have htake : (l :: t).take (10 - i) = l :: t.take (10 - (i + 1)) := by
        have h10 : 10 - i = (10 - (i + 1)) + 1 := by omega
        rw [h10, List.take_succ_cons]
      have hl : bodyLineOk l = true := by
        apply h
        rw [htake]
        exact List.mem_cons_self _ _
      have hrest : ∀ l' ∈ t.take (10 - (i + 1)), bodyLineOk l' = true := by
        intro l' hm
        apply h
        rw [htake]
        exact List.mem_cons_of_mem _ hm
      by_cases hcol : strContains l [':'] = true
      · have hk : hasAnyKey l = false := by
          have h' := hl
          simp [bodyLineOk, hcol] at h'
          exact h'
        simp only [pmGo, hcol, decide_eq_true hi, Bool.and_self, if_true,
          hk, Bool.false_eq_true, if_false,
          stripDashLine_eq_false_of_colon l hcol]
        exact ih _ _ _ hrest
      · have hcol' : strContains l [':'] = false := by
          cases hx : strContains l [':']
          · rfl
          · exact absurd hx hcol
        simp only [pmGo, hcol', Bool.false_and, Bool.false_eq_true, if_false]
        exact ih _ _ _ hrest
    · have hd : decide (i < 10) = false := by simpa using hi
      simp only [pmGo, hd, Bool.and_false, Bool.false_eq_true, if_false]
      apply ih
      intro l' hm
      have h0 : 10 - (i + 1) = 0 := by omega
      rw [h0] at hm
      simp at hm

theorem pmGo_key_step (i : Nat) (acc : List (List Char)) (cs : Nat)
    (l : List Char) (ls : List (List Char)) (hi : i < 10)
    (hcol : strContains l [':'] = true) (hk : hasAnyKey l = true) :
    pmGo i acc cs (l :: ls) = pmGo (i + 1) (acc ++ [l]) (i + 1) ls := by
  simp [pmGo, hcol, hk, hi]

theorem pmGo_nocolon_step (i : Nat) (acc : List (List Char)) (cs : Nat)
    (l : List Char) (ls : List (List Char))
    (hcol : strContains l [':'] = false) :
    pmGo i acc cs (l :: ls) = pmGo (i + 1) acc cs ls := by
  simp [pmGo, hcol]

/-- C6: for every transcript file written by `test_whisper_single_video`
(header lines `Video ID: …`, `Title: …`, `Model: whisper-…`, an 80-dash
line, a blank line, then the body), provided the header pieces are
newline-free and no body line among the file's first ten lines contains
both a colon and a metadata keyword, `preserve_metadata` returns exactly
the three header lines joined by newlines as metadata, and everything
from the dash separator line onward as content. -/
theorem c6_writer_preserve_metadata_roundtrip (vid title ms tr : String)
    (h1 : noNewlineS vid = true) (h2 : noNewlineS title = true)
    (h3 : noNewlineS ms = true)
    (h4 : ∀ l ∈ (pySplit tr.data).take 5, bodyLineOk l = true) :
    preserve_metadata (writtenTranscript vid title ms tr) =
      ("Video ID: " ++ vid ++ "\n" ++ "Title: " ++ title ++ "\n" ++
          "Model: whisper-" ++ ms,
        dashLine ++ "\n" ++ "\n" ++ tr) := by
  have hnl0 : '\n' ∉ "Video ID: ".data ++ vid.data := by
    intro hm
    rcases List.mem_append.mp hm with hm | hm
    · revert hm; decide
    · exact not_mem_of_noNewlineS vid h1 hm
  have hnl1 : '\n' ∉ "Title: ".data ++ title.data := by
    intro hm
    rcases List.mem_append.mp hm with hm | hm
    · revert hm; decide
    · exact not_mem_of_noNewlineS title h2 hm
  have hnl2 : '\n' ∉ "Model: whisper-".data ++ ms.data := by
    intro hm
    rcases List.mem_append.mp hm with hm | hm
    · revert hm; decide
    · exact not_mem_of_noNewlineS ms h3 hm
  have hnld : '\n' ∉ dashLine.data := by
    intro hm
    have := List.eq_of_mem_replicate (show '\n' ∈ List.replicate 80 '-' from hm)
    simp at this
  have edata : (writtenTranscript vid title ms tr).data
      = ("Video ID: ".data ++ vid.data) ++ '\n' ::
          (("Title: ".data ++ title.data) ++ '\n' ::
            (("Model: whisper-".data ++ ms.data) ++ '\n' ::
              (dashLine.data ++ '\n' :: ('\n' :: tr.data)))) := by
    simp [writtenTranscript, String.data_append, List.append_assoc,
      show "\n".data = ['\n'] from rfl]
  have hsplit : pySplit (writtenTranscript vid title ms tr).data
      = ("Video ID: ".data ++ vid.data) :: ("Title: ".data ++ title.data) ::
          ("Model: whisper-".data ++ ms.data) :: dashLine.data :: [] ::
          pySplit tr.data := by
    rw [edata, pySplit_append_nl _ _ hnl0, pySplit_append_nl _ _ hnl1,
      pySplit_append_nl _ _ hnl2, pySplit_append_nl _ _ hnld]
    simp [pySplit]
  have c0 : strContains ("Video ID: ".data ++ vid.data) [':'] = true :=
    strContains_append_left _ _ _ (by decide)
  have k0 : hasAnyKey ("Video ID: ".data ++ vid.data) = true := by
    have h := strContains_append_left "Video ID: ".data vid.data
      "Video ID".data (by decide)
    simp only [hasAnyKey, metaKeys, List.any_cons, List.any_nil,
      Bool.or_false, Bool.or_eq_true]
    exact Or.inl h
  have c1 : strContains ("Title: ".data ++ title.data) [':'] = true :=
    strContains_append_left _ _ _ (by decide)
  have k1 : hasAnyKey ("Title: ".data ++ title.data) = true := by
    have h := strContains_append_left "Title: ".data title.data
      "Title".data (by decide)
    simp only [hasAnyKey, metaKeys, List.any_cons, List.any_nil,
      Bool.or_false, Bool.or_eq_true]
    exact Or.inr (Or.inl h)
  have c2 : strContains ("Model: whisper-".data ++ ms.data) [':'] = true :=
    strContains_append_left _ _ _ (by decide)
  have k2 : hasAnyKey ("Model: whisper-".data ++ ms.data) = true := by
    have h := strContains_append_left "Model: whisper-".data ms.data
      "Model".data (by decide)
    simp only [hasAnyKey, metaKeys, List.any_cons, List.any_nil,
      Bool.or_false, Bool.or_eq_true]
    exact Or.inr (Or.inr (Or.inl h))
  have cd : strContains dashLine.data [':'] = false := by decide
  have ce : strContains ([] : List Char) [':'] = false := rfl
  have hpm : pmGo 0 [] 0 (pySplit (writtenTranscript vid title ms tr).data)
      = ([("Video ID: ".data ++ vid.data), ("Title: ".data ++ title.data),
          ("Model: whisper-".data ++ ms.data)], 3) := by
    rw [hsplit, pmGo_key_step _ _ _ _ _ (by norm_num) c0 k0,
      pmGo_key_step _ _ _ _ _ (by norm_num) c1 k1,
      pmGo_key_step _ _ _ _ _ (by norm_num) c2 k2,
      pmGo_nocolon_step _ _ _ _ _ cd, pmGo_nocolon_step _ _ _ _ _ ce,
      pmGo_skip _ 5 _ _ (by simpa using h4)]
    rfl
  simp only [preserve_metadata]
  rw [hpm, hsplit]
  refine Prod.ext ?_ ?_
  · apply String.ext
    simp [joinN, String.data_append, List.append_assoc,
      show "\n".data = ['\n'] from rfl]
  · apply String.ext
    have hps := pySplit_ne_nil tr.data
    simp only [List.drop_succ_cons, List.drop_zero]
    show joinN (dashLine.data :: [] :: pySplit tr.data) = _
    rw [joinN_cons_of_ne_nil _ _ (by simp),
      joinN_cons_of_ne_nil _ _ hps, joinN_pySplit]
    simp [String.data_append, show "\n".data = ['\n'] from rfl]

/-- C6 witness: a concrete written transcript file and its split. -/
theorem c6_witness :
    (noNewlineS "v1" = true ∧ noNewlineS "My Clip" = true ∧
      noNewlineS "base" = true ∧
      (∀ l ∈ (pySplit "hello\nworld".data).take 5, bodyLineOk l = true)) ∧
    preserve_metadata (writtenTranscript "v1" "My Clip" "base" "hello\nworld")
      = ("Video ID: " ++ "v1" ++ "\n" ++ "Title: " ++ "My Clip" ++ "\n" ++
          "Model: whisper-" ++ "base",
        dashLine ++ "\n" ++ "\n" ++ "hello\nworld") :=
  ⟨⟨by decide, by decide, by decide, by decide⟩,
    c6_writer_preserve_metadata_roundtrip "v1" "My Clip" "base" "hello\nworld"
      (by decide) (by decide) (by decide) (by decide)⟩

/-! ### C8: the content part of `denoise_transcript` has no newline -/

theorem matchRE_succ_cat (f : Nat) (r₁ r₂ : RE) (caps : Caps)
    (prev s : List Char) :
    matchRE (f + 1) (.cat r₁ r₂) caps prev s =
      (matchRE f r₁ caps prev s).flatMap fun x =>
        matchRE f r₂ x.2.2 x.1 x.2.1 := by
  simp only [matchRE]

theorem matchRE_succ_rep_pos (f lo : Nat) (g : Bool) (r : RE) (caps : Caps)
    (prev s : List Char) :
    matchRE (f + 1) (.rep (lo + 1) Option.none g r) caps prev s =
      (matchRE f r caps prev s).flatMap fun x =>
        matchRE f (.rep lo Option.none g r) x.2.2 x.1 x.2.1 := by
  simp only [matchRE, decOpt]
  simp [Nat.add_sub_cancel]

theorem matchRE_succ_rep_zero_greedy (f : Nat) (r : RE) (caps : Caps)
    (prev s : List Char) :
    matchRE (f + 1) (.rep 0 Option.none true r) caps prev s =
      ((matchRE f r caps prev s).flatMap fun x =>
        if x.2.1.length < s.length then
          matchRE f (.rep 0 Option.none true r) x.2.2 x.1 x.2.1
        else []) ++ [(prev, s, caps)] := by
  simp only [matchRE, decOpt]
  simp

/-- Every reported match leaves a suffix no longer than the input. -/
theorem matchRE_rest_le (f : Nat) :
    ∀ (re : RE) (caps : Caps) (prev s : List Char) (x : MRes),
      x ∈ matchRE f re caps prev s → x.2.1.length ≤ s.length := by
  induction f with
  | zero => intro re caps prev s x hx; simp [matchRE] at hx
  | succ f ih =>
    intro re caps prev s x hx
    cases re with
    | cls p =>
      cases s with
      | nil => simp [matchRE] at hx
      | cons c cs =>
        by_cases hp : p c = true
        · simp only [matchRE, hp, if_true, List.mem_singleton] at hx
          subst hx
          simp [Nat.le_succ]
        · simp [matchRE, hp] at hx
    | cat r₁ r₂ =>
      rw [matchRE_succ_cat] at hx
      rcases List.mem_flatMap.mp hx with ⟨y, hy, hxy⟩
      exact le_trans (ih r₂ _ _ _ x hxy) (ih r₁ _ _ _ y hy)
    | grp n r =>
      simp only [matchRE, List.mem_map] at hx
      rcases hx with ⟨y, hy, rfl⟩
      exact ih r _ _ _ y hy
    | bref n =>
      rcases hcl : List.lookup n caps with _ | v
      · simp [matchRE, hcl] at hx
      · by_cases hpl : isPrefixList v s = true
        · simp only [matchRE, hcl, hpl, if_true, List.mem_singleton] at hx
          subst hx
          simp
        · simp [matchRE, hcl, hpl] at hx
    | wordB =>
      by_cases hb : wordBoundary prev s = true
      · simp only [matchRE, hb, if_true, List.mem_singleton] at hx
        subst hx
        exact Nat.le_refl _
      · simp [matchRE, hb] at hx
    | rep lo hi g r =>
      have hstep : ∀ (hi' : Option Nat),
          x ∈ ((matchRE f r caps prev s).flatMap fun y =>
            if y.2.1.length < s.length then
              matchRE f (.rep 0 hi' g r) y.2.2 y.1 y.2.1
            else []) → x.2.1.length ≤ s.length := by
        intro hi' hx'
        rcases List.mem_flatMap.mp hx' with ⟨y, hy, hxy⟩
        by_cases hprog : y.2.1.length < s.length
        · rw [if_pos hprog] at hxy
          exact le_trans (ih _ _ _ _ x hxy) (ih r _ _ _ y hy)
        · rw [if_neg hprog] at hxy
          simp at hxy
      have hpos : ∀ (lo' : Nat) (hi' : Option Nat),
          x ∈ ((matchRE f r caps prev s).flatMap fun y =>
            matchRE f (.rep lo' hi' g r) y.2.2 y.1 y.2.1) →
            x.2.1.length ≤ s.length := by
        intro lo' hi' hx'
        rcases List.mem_flatMap.mp hx' with ⟨y, hy, hxy⟩
        exact le_trans (ih _ _ _ _ x hxy) (ih r _ _ _ y hy)
      rcases hi with _ | n
      · simp only [matchRE] at hx
        by_cases hlo : lo > 0
        · rw [if_pos hlo] at hx
          exact hpos _ _ hx
        · rw [if_neg hlo] at hx
          cases g with
          | true =>
            rcases List.mem_append.mp hx with hx' | hx'
            · exact hstep _ hx'
            · simp only [List.mem_singleton] at hx'
              subst hx'
              exact Nat.le_refl _
          | false =>
            rcases List.mem_cons.mp hx with hx' | hx'
            · subst hx'
              exact Nat.le_refl _
            · exact hstep _ hx'
      · cases n with
        | zero =>
          simp only [matchRE, List.mem_singleton] at hx
          subst hx
          exact Nat.le_refl _
        | succ n =>
          simp only [matchRE] at hx
          by_cases hlo : lo > 0
          · rw [if_pos hlo] at hx
            exact hpos _ _ hx
          · rw [if_neg hlo] at hx
            cases g with
            | true =>
              rcases List.mem_append.mp hx with hx' | hx'
              · exact hstep _ hx'
              · simp only [List.mem_singleton] at hx'
                subst hx'
                exact Nat.le_refl _
            | false =>
              rcases List.mem_cons.mp hx with hx' | hx'
              · subst hx'
                exact Nat.le_refl _
              · exact hstep _ hx'

/-- `\s+` matches at every whitespace-headed position (with the fuel
`pySub` supplies). -/
theorem spPlus_match_ne_nil (f : Nat) (hf : 2 ≤ f) (caps : Caps)
    (prev : List Char) (c : Char) (cs : List Char)
    (hc : isSpaceChar c = true) :
    matchRE f spPlus caps prev (c :: cs) ≠ [] := by
  obtain ⟨f', rfl⟩ : ∃ f', f = f' + 2 := ⟨f - 2, by omega⟩
  show matchRE (f' + 1 + 1) (.rep 1 Option.none true (.cls isSpaceChar)) caps
      prev (c :: cs) ≠ []
  rw [matchRE_succ_rep_pos]
  have hcls : matchRE (f' + 1) (.cls isSpaceChar) caps prev (c :: cs)
      = [(c :: prev, cs, caps)] := by
    simp [matchRE, hc]
  rw [hcls]
  cases hf' : f' with
  | zero =>
    simp [matchRE]
  | succ f'' =>
    rw [List.flatMap_singleton, matchRE_succ_rep_zero_greedy]
    simp

/-- Every `\s+` match consumes at least one character. -/
theorem spPlus_match_lt (f : Nat) (caps : Caps) (prev s : List Char)
    (x : MRes) (hx : x ∈ matchRE f spPlus caps prev s) :
    x.2.1.length < s.length := by
  cases f with
  | zero => simp [matchRE] at hx
  | succ f =>
    rw [show spPlus = .rep 1 Option.none true (.cls isSpaceChar) from rfl,
      matchRE_succ_rep_pos] at hx
    rcases List.mem_flatMap.mp hx with ⟨y, hy, hxy⟩
    cases f with
    | zero => simp [matchRE] at hy
    | succ f =>
      cases s with
      | nil => simp [matchRE] at hy
      | cons c cs =>
        by_cases hc : isSpaceChar c = true
        · simp only [matchRE, hc, if_true, List.mem_singleton] at hy
          subst hy
          have hle := matchRE_rest_le _ _ _ _ _ x hxy
          simp only at hle
          simp only [List.length_cons]
          omega
        · simp [matchRE, hc] at hy

/-- The `\s+ → ' '` pass emits no newline (with `pySub`'s fuel). -/
theorem subLoop_spPlus_no_nl (f : Nat) :
    ∀ (prev s : List Char), s.length < f →
      '\n' ∉ subLoop f spPlus [TItem.lit [' ']] prev s := by
  induction f with
  | zero => intro prev s h; omega
  | succ f ih =>
    intro prev s hlen hm
    rcases hfm : firstMatch spPlus prev s with _ | pr
    · cases s with
      | nil => simp [subLoop, hfm] at hm
      | cons c cs =>
        have hc : isSpaceChar c = false := by
          cases hcv : isSpaceChar c
          · rfl
          · exfalso
            have hne := spPlus_match_ne_nil (matchFuel (c :: cs))
              (by simp [matchFuel]; omega) [] prev c cs hcv
            unfold firstMatch at hfm
            rcases hml : matchRE (matchFuel (c :: cs)) spPlus [] prev (c :: cs)
              with _ | ⟨a, t⟩
            · exact hne hml
            · rw [hml] at hfm
              simp at hfm
        simp only [subLoop, hfm] at hm
        rcases List.mem_cons.mp hm with hm' | hm'
        · rw [← hm'] at hc
          exact absurd hc (by decide)
        · have hcs : cs.length < f := by
            simp only [List.length_cons] at hlen
            omega
          exact ih _ _ hcs hm'
    · obtain ⟨rest, caps⟩ := pr
      have hlt : rest.length < s.length := by
        unfold firstMatch at hfm
        rcases hml : matchRE (matchFuel s) spPlus [] prev s with _ | ⟨a, t⟩
        · rw [hml] at hfm; simp at hfm
        · rw [hml] at hfm
          simp only [List.head?_cons, Option.some.injEq] at hfm
          have ha : a ∈ matchRE (matchFuel s) spPlus [] prev s := by
            rw [hml]; exact List.mem_cons_self _ _
          have := spPlus_match_lt _ _ _ _ a ha
          have hr : rest = a.2.1 := (congrArg Prod.fst hfm).symm
          rw [hr]
          exact this
      have hne : (rest.length == s.length) = false := by
        simp only [beq_eq_false_iff_ne, ne_eq]
        omega
      simp only [subLoop, hfm, hne, Bool.false_eq_true, if_false] at hm
      rcases List.mem_append.mp hm with hm' | hm'
      · simp [expand] at hm'
      · exact ih _ _ (by omega) hm'

/-- With no newline in the input, `\n\s*\n` never matches. -/
theorem matchRE_nlPat_nil (g : Nat) (caps : Caps) (prev s : List Char)
    (h : '\n' ∉ s) : matchRE g patDoubleNl caps prev s = [] := by
  cases g with
  | zero => rfl
  | succ g =>
    rw [show patDoubleNl = .cat (lit '\n') (.cat spStar (lit '\n')) from rfl,
      matchRE_succ_cat]
    have hlit : matchRE g (lit '\n') caps prev s = [] := by
      cases g with
      | zero => rfl
      | succ g =>
        cases s with
        | nil => rfl
        | cons c cs =>
          have hc : (c == '\n') = false := by
            simp only [beq_eq_false_iff_ne, ne_eq]
            intro hcn
            exact h (hcn ▸ List.mem_cons_self c cs)
          simp [matchRE, lit, hc]
    rw [hlit]
    rfl

/-- On newline-free input the `\n\s*\n → '\n\n'` pass is the identity. -/
theorem subLoop_nlPat_id (f : Nat) :
    ∀ (prev s : List Char), '\n' ∉ s →
      subLoop f patDoubleNl [TItem.lit ['\n', '\n']] prev s = s := by
  induction f with
  | zero => intro prev s _; rfl
  | succ f ih =>
    intro prev s h
    have hfm : firstMatch patDoubleNl prev s = Option.none := by
      unfold firstMatch
      rw [matchRE_nlPat_nil _ _ _ _ h]
      rfl
    cases s with
    | nil => simp [subLoop, hfm]
    | cons c cs =>
      simp only [subLoop, hfm]
      rw [ih (c :: prev) cs (fun hm => h (List.mem_cons_of_mem c hm))]

theorem mem_of_mem_pyStrip (l : List Char) (c : Char)
    (h : c ∈ pyStrip l) : c ∈ l := by
  unfold pyStrip at h
  have h1 := List.mem_reverse.mp h
  have h2 := List.dropWhile_subset _ h1
  have h3 := List.mem_reverse.mp h2
  exact List.dropWhile_subset _ h3

/-- `normalize_spacing` never outputs a newline. -/
theorem normalize_spacing_no_nl (s : String) :
    '\n' ∉ (normalize_spacing s).data := by
  intro hm
  have h1 : '\n' ∉ (pySub spPlus [TItem.lit [' ']] s).data := by
    apply subLoop_spPlus_no_nl
    omega
  have h2 : '\n' ∉ (pyStripS (pySub spPlus [TItem.lit [' ']] s)).data :=
    fun hm' => h1 (mem_of_mem_pyStrip _ _ hm')
  have h3 : (normalize_spacing s).data
      = (pyStripS (pySub spPlus [TItem.lit [' ']] s)).data := by
    show (pySub patDoubleNl [TItem.lit ['\n', '\n']] _).data = _
    show subLoop _ patDoubleNl [TItem.lit ['\n', '\n']] [] _ = _
    rw [subLoop_nlPat_id _ _ _ h2]
  rw [h3] at hm
  exact h2 hm

/-- C8: for every input and both modes, the content part of
`denoise_transcript`'s return value contains no newline character —
`normalize_spacing`, the last stage of both the normal and the aggressive
path, flattens all whitespace runs (newlines included) to single
spaces. -/
theorem c8_denoised_content_single_line (text : String) (aggressive : Bool) :
    (denoise_transcript text aggressive =
      if (preserve_metadata text).1 = "" then
        denoiseContent (preserve_metadata text).2 aggressive
      else
        (preserve_metadata text).1 ++ "\n\n" ++
          denoiseContent (preserve_metadata text).2 aggressive) ∧
    '\n' ∉ (denoiseContent (preserve_metadata text).2 aggressive).data := by
  constructor
  · rfl
  · cases aggressive with
    | false => exact normalize_spacing_no_nl _
    | true => exact normalize_spacing_no_nl _

/-! ### The `process_batch` loop invariant (claims C2, C3, C4) -/

theorem loopGuardsOk_append (thr : ℚ) (a b : List BEv) :
    loopGuardsOk thr (a ++ b)
      = (loopGuardsOk thr a && loopGuardsOk thr b) := by
  simp [loopGuardsOk, List.all_append]

theorem countNoneSubmits_append (a b : List BEv) :
    countNoneSubmits (a ++ b) = countNoneSubmits a + countNoneSubmits b := by
  simp [countNoneSubmits, List.filter_append]

theorem countCollect_append (a b : List BEv) :
    countCollect (a ++ b) = countCollect a + countCollect b := by
  simp [countCollect, List.filter_append]

theorem length_filter_partition (l : List (Nat × String))
    (p : Nat × String → Bool) :
    (l.filter p).length + (l.filter fun x => !(p x)).length = l.length := by
  induction l with
  | nil => rfl
  | cons a t ih =>
    by_cases ha : p a = true <;>
      simp [List.filter_cons, ha] <;> omega

/-- The loop invariant of `process_batch`: the pool never holds more than
`2 * max_workers` tasks (also historically, through `maxActive`), the
submitted ids followed by the pending ids are exactly the input list, the
stats counters tally the collected futures, the error list tracks the
failed counter, and the trace obeys the guard discipline. -/
def BatchInv (ids : List String) (wk : Nat) (thr : ℚ) (st : BSt) : Prop :=
  st.active.length ≤ 2 * wk ∧
  st.maxActive ≤ 2 * wk ∧
  st.submitted ++ st.pending = ids ∧
  st.succ + st.skippedN + st.failedN = st.completed ∧
  st.errors.length = st.failedN ∧
  loopGuardsOk thr st.events = true ∧
  countCollect st.events = st.completed

theorem classifyStep_fields (st : BSt) (it : Nat × String) (r : BRes) :
    (classifyStep st it r).active = st.active ∧
    (classifyStep st it r).maxActive = st.maxActive ∧
    (classifyStep st it r).submitted = st.submitted ∧
    (classifyStep st it r).pending = st.pending ∧
    (classifyStep st it r).completed = st.completed ∧
    (classifyStep st it r).events = st.events ∧
    (classifyStep st it r).succ + (classifyStep st it r).skippedN +
        (classifyStep st it r).failedN
      = st.succ + st.skippedN + st.failedN + 1 ∧
    (classifyStep st it r).errors.length - (classifyStep st it r).failedN
        = st.errors.length - st.failedN ∧
    (st.errors.length = st.failedN →
      (classifyStep st it r).errors.length = (classifyStep st it r).failedN) := by
  unfold classifyStep
  by_cases h1 : r.skipped = true
  · simp [h1]
    omega
  · by_cases h2 : r.success = true <;> simp [h1, h2] <;> omega

theorem checkpointStep_fields (env : BEnv) (thr : ℚ) (st : BSt) :
    (checkpointStep env thr st).active = st.active ∧
    (checkpointStep env thr st).maxActive = st.maxActive ∧
    (checkpointStep env thr st).submitted = st.submitted ∧
    (checkpointStep env thr st).pending = st.pending ∧
    (checkpointStep env thr st).completed = st.completed ∧
    (checkpointStep env thr st).succ = st.succ ∧
    (checkpointStep env thr st).skippedN = st.skippedN ∧
    (checkpointStep env thr st).failedN = st.failedN ∧
    (checkpointStep env thr st).errors = st.errors ∧
    (loopGuardsOk thr st.events = true →
      loopGuardsOk thr (checkpointStep env thr st).events = true) ∧
    countCollect (checkpointStep env thr st).events
      = countCollect st.events ∧
    countNoneSubmits (checkpointStep env thr st).events
      = countNoneSubmits st.events := by
  unfold checkpointStep
  by_cases h1 : (st.completed % 5 == 0) = true
  · by_cases h2 : env.memStream st.memClock > thr
    · simp [h1, h2, loopGuardsOk_append, countCollect_append,
        countNoneSubmits_append, loopGuardsOk, guardOkEv, countCollect,
        countNoneSubmits]
    · simp [h1, h2]
  · simp [h1]

theorem replaceStep_inv (env : BEnv) (ids : List String) (wk : Nat) (thr : ℚ)
    (st : BSt) (n : Nat) (h : BatchInv ids wk thr st)
    (hb : st.active.length + n + 1 ≤ 2 * wk) :
    BatchInv ids wk thr (replaceStep env thr st) ∧
      (replaceStep env thr st).active.length + n ≤ 2 * wk ∧
      countNoneSubmits (replaceStep env thr st).events
        = countNoneSubmits st.events ∧
      countCollect (replaceStep env thr st).events
        = countCollect st.events ∧
      (replaceStep env thr st).completed = st.completed := by
  obtain ⟨h1, h2, h3, h4, h5, h6, h7⟩ := h
  rcases hp : st.pending with _ | ⟨v, rest⟩
  · have hre : replaceStep env thr st = st := by
      unfold replaceStep
      rw [hp]
    rw [hre]
    exact ⟨⟨h1, h2, h3, h4, h5, h6, h7⟩, by omega, rfl, rfl, rfl⟩
  · have hre : replaceStep env thr st
        = if env.memStream st.memClock > thr then
            { st with memClock := st.memClock + 1 }
          else pushSubmit env (some (env.memStream st.memClock)) v
            { st with memClock := st.memClock + 1, pending := rest } := by
      unfold replaceStep
      rw [hp]
    rw [hre]
    by_cases hm : env.memStream st.memClock > thr
    · rw [if_pos hm]
      refine ⟨⟨h1, h2, h3, h4, h5, h6, h7⟩, ?_, rfl, rfl, rfl⟩
      show st.active.length + n ≤ 2 * wk
      omega
    · rw [if_neg hm]
      rw [hp] at h3
      unfold pushSubmit
      refine ⟨⟨?_, ?_, ?_, h4, h5, ?_, ?_⟩, ?_, ?_, ?_, rfl⟩
      · show (st.active ++ [(st.nextTok, v)]).length ≤ 2 * wk
        simp only [List.length_append, List.length_singleton]
        omega
      · show max st.maxActive (st.active ++ [(st.nextTok, v)]).length ≤ 2 * wk
        simp only [List.length_append, List.length_singleton]
        omega
      · show st.submitted ++ [v] ++ rest = ids
        rw [List.append_assoc, List.singleton_append]
        exact h3
      · show loopGuardsOk thr (st.events ++ [_]) = true
        rw [loopGuardsOk_append, h6]
        simp [loopGuardsOk, guardOkEv]
        exact le_of_not_lt hm
      · show countCollect (st.events ++ [_]) = st.completed
        rw [countCollect_append, h7]
        simp [countCollect]
      · show (st.active ++ [(st.nextTok, v)]).length + n ≤ 2 * wk
        simp only [List.length_append, List.length_singleton]
        omega
      · show countNoneSubmits (st.events ++ [_]) = countNoneSubmits st.events
        rw [countNoneSubmits_append]
        simp [countNoneSubmits]
      · show countCollect (st.events ++ [_]) = countCollect st.events
        rw [countCollect_append]
        simp [countCollect]

theorem collectOne_inv (env : BEnv) (ids : List String) (wk : Nat) (thr : ℚ)
    (st : BSt) (it : Nat × String) (n : Nat) (h : BatchInv ids wk thr st)
    (hb : st.active.length + n + 1 ≤ 2 * wk) :
    BatchInv ids wk thr (collectOne env thr st it) ∧
      (collectOne env thr st it).active.length + n ≤ 2 * wk ∧
      countNoneSubmits (collectOne env thr st it).events
        = countNoneSubmits st.events := by
  obtain ⟨h1, h2, h3, h4, h5, h6, h7⟩ := h
  have hgj : loopGuardsOk thr (st.events ++ [BEv.collect it.1 it.2]) = true := by
    rw [loopGuardsOk_append, h6]
    simp [loopGuardsOk, guardOkEv]
  have hcj : countCollect (st.events ++ [BEv.collect it.1 it.2])
      = st.completed + 1 := by
    rw [countCollect_append, h7]
    simp [countCollect]
  have hnj : countNoneSubmits (st.events ++ [BEv.collect it.1 it.2])
      = countNoneSubmits st.events := by
    rw [countNoneSubmits_append]
    simp [countNoneSubmits]
  unfold collectOne
  cases ho : env.outcome it.1 with
  | exn m =>
    refine ⟨⟨?_, ?_, ?_, ?_, ?_, ?_, ?_⟩, ?_, ?_⟩
    · show st.active.length ≤ 2 * wk
      exact h1
    · show st.maxActive ≤ 2 * wk
      exact h2
    · show st.submitted ++ st.pending = ids
      exact h3
    · show st.succ + st.skippedN + (st.failedN + 1) = st.completed + 1
      omega
    · show (st.errors ++ [(it.2, m)]).length = st.failedN + 1
      simp only [List.length_append, List.length_singleton]
      omega
    · show loopGuardsOk thr (st.events ++ [BEv.collect it.1 it.2]) = true
      exact hgj
    · show countCollect (st.events ++ [BEv.collect it.1 it.2])
          = st.completed + 1
      exact hcj
    · show st.active.length + n ≤ 2 * wk
      omega
    · show countNoneSubmits (st.events ++ [BEv.collect it.1 it.2])
          = countNoneSubmits st.events
      exact hnj
  | ok r =>
    obtain ⟨c1, c2, c3, c4, c5, c6, c7, c8, c9⟩ :=
      classifyStep_fields (recordCollect st it) it r
    obtain ⟨k1, k2, k3, k4, k5, k6, k7, k8, k9, k10, k11, k12⟩ :=
      checkpointStep_fields env thr (classifyStep (recordCollect st it) it r)
    have e1 : (recordCollect st it).active = st.active := rfl
    have e2 : (recordCollect st it).maxActive = st.maxActive := rfl
    have e3 : (recordCollect st it).submitted = st.submitted := rfl
    have e4 : (recordCollect st it).pending = st.pending := rfl
    have e5 : (recordCollect st it).completed = st.completed + 1 := rfl
    have e6 : (recordCollect st it).events
        = st.events ++ [BEv.collect it.1 it.2] := rfl
    have e7 : (recordCollect st it).succ + (recordCollect st it).skippedN +
        (recordCollect st it).failedN = st.succ + st.skippedN + st.failedN :=
      rfl
    have e8 : (recordCollect st it).errors.length
        = (recordCollect st it).failedN := h5
    have hchk : BatchInv ids wk thr
        (checkpointStep env thr (classifyStep (recordCollect st it) it r)) := by
      refine ⟨?_, ?_, ?_, ?_, ?_, ?_, ?_⟩
      · rw [k1, c1, e1]
        exact h1
      · rw [k2, c2, e2]
        exact h2
      · rw [k3, k4, c3, c4, e3, e4]
        exact h3
      · rw [k6, k7, k8, k5, c5, c7, e7, e5]
        omega
      · rw [k9, k8]
        exact c9 e8
      · apply k10
        rw [c6, e6]
        exact hgj
      · rw [k11, k5, c6, c5, e6, e5, hcj]
    have hbchk : (checkpointStep env thr
        (classifyStep (recordCollect st it) it r)).active.length + n + 1
        ≤ 2 * wk := by
      rw [k1, c1, e1]
      exact hb
    obtain ⟨r1, r2, r3, r4, r5⟩ :=
      replaceStep_inv env ids wk thr _ n hchk hbchk
    exact ⟨r1, r2, by rw [r3, k12, c6, e6, hnj]⟩

theorem foldl_collectOne_inv (env : BEnv) (ids : List String) (wk : Nat)
    (thr : ℚ) :
    ∀ (dn : List (Nat × String)) (st : BSt), BatchInv ids wk thr st →
      st.active.length + dn.length ≤ 2 * wk →
      BatchInv ids wk thr (dn.foldl (collectOne env thr) st) ∧
        countNoneSubmits ((dn.foldl (collectOne env thr) st)).events
          = countNoneSubmits st.events := by
  intro dn
  induction dn with
  | nil => intro st h _; exact ⟨h, rfl⟩
  | cons it t ih =>
    intro st h hb
    have hb' : st.active.length + t.length + 1 ≤ 2 * wk := by
      simp only [List.length_cons] at hb
      omega
    obtain ⟨h', hb'', hn⟩ := collectOne_inv env ids wk thr st it t.length h hb'
    obtain ⟨hf, hfn⟩ := ih (collectOne env thr st it) h' hb''
    exact ⟨hf, by rw [List.foldl_cons, hfn, hn]⟩

theorem initLoop_inv (env : BEnv) (ids : List String) (wk : Nat) (thr : ℚ) :
    ∀ (k : Nat) (st : BSt), BatchInv ids wk thr st →
      st.active.length + k ≤ 2 * wk →
      BatchInv ids wk thr (initLoop env k st) ∧
        countNoneSubmits (initLoop env k st).events
          ≤ countNoneSubmits st.events + k := by
  intro k
  induction k with
  | zero => intro st h _; exact ⟨h, Nat.le_refl _⟩
  | succ k ih =>
    intro st h hb
    obtain ⟨h1, h2, h3, h4, h5, h6, h7⟩ := h
    rcases hp : st.pending with _ | ⟨v, rest⟩
    · have hre : initLoop env (k + 1) st = initLoop env k st := by
        simp only [initLoop, hp]
      rw [hre]
      obtain ⟨hf, hfn⟩ := ih st ⟨h1, h2, h3, h4, h5, h6, h7⟩ (by omega)
      exact ⟨hf, by omega⟩
    · rw [hp] at h3
      have hre : initLoop env (k + 1) st
          = if env.shutStream st.shutClock = true then
              initLoop env k
                { st with pending := v :: rest, shutClock := st.shutClock + 1 }
            else
              initLoop env k (pushSubmit env Option.none v
                { st with shutClock := st.shutClock + 1, pending := rest }) := by
        simp only [initLoop, hp]
      rw [hre]
      by_cases hsh : env.shutStream st.shutClock = true
      · rw [if_pos hsh]
        have hst' : BatchInv ids wk thr
            { st with
              pending := v :: rest
              shutClock := st.shutClock + 1 } :=
          ⟨h1, h2, by simpa using h3, h4, h5, h6, h7⟩
        obtain ⟨hf, hfn⟩ := ih _ hst' (by
          show st.active.length + k ≤ 2 * wk
          omega)
        have hfn' : countNoneSubmits
            (initLoop env k
              { st with
                pending := v :: rest
                shutClock := st.shutClock + 1 }).events
            ≤ countNoneSubmits st.events + k := hfn
        exact ⟨hf, by omega⟩
      · rw [if_neg hsh]
        have hst' : BatchInv ids wk thr
            (pushSubmit env Option.none v
              { st with shutClock := st.shutClock + 1, pending := rest }) := by
          unfold pushSubmit
          refine ⟨?_, ?_, ?_, h4, h5, ?_, ?_⟩
          · show (st.active ++ [(st.nextTok, v)]).length ≤ 2 * wk
            simp only [List.length_append, List.length_singleton]
            omega
          · show max st.maxActive (st.active ++ [(st.nextTok, v)]).length
                ≤ 2 * wk
            simp only [List.length_append, List.length_singleton]
            omega
          · show st.submitted ++ [v] ++ rest = ids
            rw [List.append_assoc, List.singleton_append]
            exact h3
          · show loopGuardsOk thr (st.events ++ [_]) = true
            rw [loopGuardsOk_append, h6]
            simp [loopGuardsOk, guardOkEv]
          · show countCollect (st.events ++ [_]) = st.completed
            rw [countCollect_append, h7]
            simp [countCollect]
        obtain ⟨hf, hfn⟩ := ih _ hst' (by
          show (st.active ++ [(st.nextTok, v)]).length + k ≤ 2 * wk
          simp only [List.length_append, List.length_singleton]
          omega)
        refine ⟨hf, ?_⟩
        have hpn : countNoneSubmits (pushSubmit env Option.none v
            { st with shutClock := st.shutClock + 1, pending := rest }).events
            = countNoneSubmits st.events + 1 := by
          show countNoneSubmits (st.events ++ [_]) = _
          rw [countNoneSubmits_append]
          simp [countNoneSubmits]
        omega

theorem whileLoop_inv (env : BEnv) (ids : List String) (wk : Nat) (thr : ℚ) :
    ∀ (fuel : Nat) (st : BSt), BatchInv ids wk thr st →
      BatchInv ids wk thr (whileLoop env thr fuel st) ∧
        countNoneSubmits (whileLoop env thr fuel st).events
          = countNoneSubmits st.events := by
  intro fuel
  induction fuel with
  | zero => intro st h; exact ⟨h, rfl⟩
  | succ fuel ih =>
    intro st h
    obtain ⟨h1, h2, h3, h4, h5, h6, h7⟩ := h
    rcases ha : st.active with _ | ⟨a, at'⟩
    · have hre : whileLoop env thr (fuel + 1) st = st := by
        simp only [whileLoop, ha]
      rw [hre]
      exact ⟨⟨h1, h2, h3, h4, h5, h6, h7⟩, rfl⟩
    · have hre : whileLoop env thr (fuel + 1) st
          = if env.shutStream st.shutClock = true then
              { st with active := a :: at', shutClock := st.shutClock + 1 }
            else
              whileLoop env thr fuel
                (((a :: at').filter (fun p => env.doneSel st.pollRound p.1)).foldl
                  (collectOne env thr)
                  { st with
                    shutClock := st.shutClock + 1
                    active := (a :: at').filter
                      (fun p => !(env.doneSel st.pollRound p.1))
                    pollRound := st.pollRound + 1 }) := by
        simp only [whileLoop, ha]
      rw [hre]
      by_cases hsh : env.shutStream st.shutClock = true
      · rw [if_pos hsh]
        refine ⟨⟨?_, h2, h3, h4, h5, h6, h7⟩, rfl⟩
        show (a :: at').length ≤ 2 * wk
        rw [← ha]
        exact h1
      · rw [if_neg hsh]
        have hkept : BatchInv ids wk thr
            { st with
              shutClock := st.shutClock + 1
              active := (a :: at').filter
                (fun p => !(env.doneSel st.pollRound p.1))
              pollRound := st.pollRound + 1 } := by
          refine ⟨?_, h2, h3, h4, h5, h6, h7⟩
          show ((a :: at').filter
              (fun p => !(env.doneSel st.pollRound p.1))).length ≤ 2 * wk
          calc ((a :: at').filter
                (fun p => !(env.doneSel st.pollRound p.1))).length
              ≤ (a :: at').length := List.length_filter_le _ _
            _ = st.active.length := by rw [ha]
            _ ≤ 2 * wk := h1
        have hblen :
            ({ st with
              shutClock := st.shutClock + 1
              active := (a :: at').filter
                (fun p => !(env.doneSel st.pollRound p.1))
              pollRound := st.pollRound + 1 } : BSt).active.length +
              ((a :: at').filter (fun p => env.doneSel st.pollRound p.1)).length
              ≤ 2 * wk := by
          show ((a :: at').filter
              (fun p => !(env.doneSel st.pollRound p.1))).length +
              ((a :: at').filter (fun p => env.doneSel st.pollRound p.1)).length
              ≤ 2 * wk
          have hpart := length_filter_partition (a :: at')
            (fun p => env.doneSel st.pollRound p.1)
          have hlen : (a :: at').length = st.active.length := by rw [ha]
          omega
        obtain ⟨hf, hfn⟩ := foldl_collectOne_inv env ids wk thr _ _ hkept hblen
        obtain ⟨hw, hwn⟩ := ih _ hf
        refine ⟨hw, ?_⟩
        rw [hwn, hfn]

/-- The invariant holds at the end of `process_batch` (at every fuel), and
the unguarded submissions number at most the initial batch. -/
theorem processBatch_inv (env : BEnv) (ids : List String) (wk : Nat)
    (thr : ℚ) (fuel : Nat) :
    BatchInv ids wk thr (processBatch env ids wk thr fuel) ∧
      countNoneSubmits (processBatch env ids wk thr fuel).events
        ≤ min (2 * wk) ids.length := by
  cases ids with
  | nil =>
    refine ⟨⟨?_, ?_, ?_, ?_, ?_, ?_, ?_⟩, ?_⟩ <;>
      simp [processBatch, initSt, loopGuardsOk, countCollect, countNoneSubmits]
  | cons v vs =>
    have hre : processBatch env (v :: vs) wk thr fuel
        = whileLoop env thr fuel
            (initLoop env (min (wk * 2) (v :: vs).length)
              { initSt (v :: vs) with memClock := 1 }) := rfl
    rw [hre]
    have hst0 : BatchInv (v :: vs) wk thr
        { initSt (v :: vs) with memClock := 1 } := by
      refine ⟨?_, ?_, ?_, ?_, ?_, ?_, ?_⟩ <;>
        simp [initSt, loopGuardsOk, countCollect]
    obtain ⟨hi, hin⟩ := initLoop_inv env (v :: vs) wk thr
      (min (wk * 2) (v :: vs).length)
      { initSt (v :: vs) with memClock := 1 } hst0
      (by
        show ([] : List (Nat × String)).length + _ ≤ 2 * wk
        simp only [List.length_nil, Nat.zero_add]
        omega)
    obtain ⟨hw, hwn⟩ := whileLoop_inv env (v :: vs) wk thr fuel _ hi
    refine ⟨hw, ?_⟩
    rw [hwn]
    have hz : countNoneSubmits
        ({ initSt (v :: vs) with memClock := 1 } : BSt).events = 0 := rfl
    rw [hz] at hin
    have hlen : (v :: vs).length = vs.length + 1 := rfl
    omega

/-- C2 (as stated) is refuted: the initial batch submits with no memory
check.  With every memory reading at 100 % and the threshold at 85 %,
`process_batch` still submits its initial task, so a task is submitted to
the pool while system memory usage exceeds the threshold. -/
theorem c2_counterexample_initial_batch_unguarded :
    headlineC2 85 (processBatch env100 ["a"] 1 85 3).events = false ∧
      env100.memStream 0 = 100 ∧ (85 : ℚ) < 100 := by
  refine ⟨?_, rfl, by norm_num⟩
  decide

/-- C2 (amended): after the unguarded initial batch — at most
`min(2 * max_workers, len(video_ids))` submissions with no memory check —
every replacement submission is guarded by `check_system_resources`
returning true (its reading at or below the threshold), and every
5-completion checkpoint that reads usage above the threshold sleeps 10
seconds before continuing (every `sleep10` trace event carries a reading
above the threshold). -/
theorem c2_amended_replacements_guarded (env : BEnv) (ids : List String)
    (wk : Nat) (thr : ℚ) (fuel : Nat) :
    loopGuardsOk thr (processBatch env ids wk thr fuel).events = true ∧
      countNoneSubmits (processBatch env ids wk thr fuel).events
        ≤ min (2 * wk) ids.length := by
  obtain ⟨⟨-, -, -, -, -, h6, -⟩, hn⟩ := processBatch_inv env ids wk thr fuel
  exact ⟨h6, hn⟩

/-- C3: throughout every `process_batch` run the pool holds at most
`2 * max_workers` submitted-but-uncollected tasks (`maxActive` records the
historical maximum of `active_futures`), and the submitted ids are exactly
a prefix of the input list — each id taken from the pending list is
submitted at most once and never resubmitted. -/
theorem c3_pool_bounded_and_no_resubmission (env : BEnv) (ids : List String)
    (wk : Nat) (thr : ℚ) (fuel : Nat) :
    (processBatch env ids wk thr fuel).maxActive ≤ 2 * wk ∧
      (processBatch env ids wk thr fuel).submitted
        = ids.take (processBatch env ids wk thr fuel).submitted.length := by
  obtain ⟨⟨-, h2, h3, -, -, -, -⟩, -⟩ := processBatch_inv env ids wk thr fuel
  refine ⟨h2, ?_⟩
  set st := processBatch env ids wk thr fuel with hst
  rw [← h3]
  exact (List.take_left _ _).symm

/-- C4: failures are recorded, not retried and not raised — every
collected task increments exactly one of success/skipped/failed (their sum
equals the number of collected futures), every failure appends a
(video id, message) entry to the error list, and the run returns its stats
normally (the model is total). -/
theorem c4_stats_partition_collected (env : BEnv) (ids : List String)
    (wk : Nat) (thr : ℚ) (fuel : Nat) :
    (processBatch env ids wk thr fuel).succ
        + (processBatch env ids wk thr fuel).skippedN
        + (processBatch env ids wk thr fuel).failedN
      = (processBatch env ids wk thr fuel).completed ∧
      (processBatch env ids wk thr fuel).errors.length
        = (processBatch env ids wk thr fuel).failedN ∧
      countCollect (processBatch env ids wk thr fuel).events
        = (processBatch env ids wk thr fuel).completed := by
  obtain ⟨⟨-, -, -, h4, h5, -, h7⟩, -⟩ := processBatch_inv env ids wk thr fuel
  exact ⟨h4, h5, h7⟩

end YTA